import Mathlib

/-!
# Verification of the file-backed mail store (pkg/storage/file/fstore.go)

A shallow embedding of the file store's operations and proofs about them.
Pure string/`path` manipulation is translated directly; fallible external
effects (file system calls, the message source stream) are driven by explicit
environment records stating which call succeeds, and every operation returns,
besides its Go result, the trace of effectful actions it performed.
Parts of the repository that are referenced but whose code is not available
(the mailbox method implementations, the name policy and the hashing utility)
are modelled from the specification and marked as such in their doc comments.
-/

/-! ## Modelling of Go library primitives -/

/-- Models Go `filepath.Join` on Unix for clean, nonempty path components:
the components joined by the separator. -/
def goJoin : List String → String
  | [] => ""
  | [p] => p
  | p :: rest => p ++ "/" ++ goJoin rest

/-- Models the Go slice expression `s[0:n]` on an ASCII string: the first `n`
characters when `n ≤ len(s)`, and `none` (a Go panic: slice bounds out of
range) otherwise. -/
def goSlice (s : String) (n : Nat) : Option String :=
  if n ≤ s.data.length then some (String.mk (s.data.take n)) else none

/-- Fuel-driven accumulator loop producing the big-endian decimal digits of
`n`, mirroring the digit loop of Go `strconv.AppendInt`. The fuel is only a
termination device; `decDigits` always supplies enough. -/
def decDigitsAux : Nat → Nat → List Char → List Char
  | 0, _, acc => acc
  | fuel + 1, n, acc =>
    if n < 10 then Nat.digitChar n :: acc
    else decDigitsAux fuel (n / 10) (Nat.digitChar (n % 10) :: acc)

/-- The big-endian decimal digits of `n` (at least one digit). -/
def decDigits (n : Nat) : List Char := decDigitsAux (n + 1) n []

/-- Models Go `fmt.Sprintf` with a `%0wd` verb (equally, the fixed-width
number fields of `time.Format` layouts): the decimal digits of `x`,
left-padded with zeros to a minimum width `w`. -/
def goAppendInt (x w : Nat) : String :=
  String.mk (List.replicate (w - (decDigits x).length) '0' ++ decDigits x)

/-- Whether a character is a decimal digit (the `\d` of the spec's regex). -/
def isDigitChar (c : Char) : Bool := decide ('0' ≤ c ∧ c ≤ '9')

/-- Consumes exactly `k` characters satisfying `p`, returning the remaining
characters, or `none` if fewer than `k` such characters lead the list. -/
def matchRun : Nat → (Char → Bool) → List Char → Option (List Char)
  | 0, _, cs => some cs
  | _ + 1, _, [] => none
  | k + 1, p, c :: cs => if p c then matchRun k p cs else none

/-- Decides the spec's regex for message IDs, `^\d{8}T\d{6}-\d{4}$`. -/
def isIDFormat (s : String) : Bool :=
  match matchRun 8 isDigitChar s.data with
  | some (c1 :: cs1) =>
    if c1 = 'T' then
      match matchRun 6 isDigitChar cs1 with
      | some (c2 :: cs2) =>
        if c2 = '-' then
          match matchRun 4 isDigitChar cs2 with
          | some [] => true
          | _ => false
        else false
      | _ => false
    else false
  | _ => false

/-! ## The sequence generator -/

/-- The value sent by `countGenerator` on its `n`-th send over `countChannel`:
the loop starts at `0` and steps by `i = (i + 1) % 10000`. -/
def countValue : Nat → Nat
  | 0 => 0
  | n + 1 => (countValue n + 1) % 10000

/-! ## Timestamps and message IDs -/

/-- A wall-clock time at second resolution, standing in for Go `time.Time`.
Go guarantees `month ∈ 1..12`, `day ∈ 1..31`, `hour < 24`, `minute < 60`,
`second < 60`; theorems assume only (weaker) width bounds. -/
structure GoTime where
  year : Nat
  month : Nat
  day : Nat
  hour : Nat
  minute : Nat
  second : Nat
  deriving DecidableEq

/-- Embeds `generatePrefix`: Go `date.Format` with the fixed layout
`"20060102T150405"`, i.e. zero-padded year(4) month(2) day(2), a literal
`T`, and zero-padded hour(2) minute(2) second(2). -/
def generateDatePart (t : GoTime) : String :=
  goAppendInt t.year 4 ++ goAppendInt t.month 2 ++ goAppendInt t.day 2
    ++ "T" ++ goAppendInt t.hour 2 ++ goAppendInt t.minute 2 ++ goAppendInt t.second 2

/-- Embeds `generateID`, with the value received from `countChannel` made an
explicit argument `seq`: the date part, a dash, and `fmt.Sprintf` of `seq`
with the `%04d` verb. -/
def generateID (t : GoTime) (seq : Nat) : String :=
  generateDatePart t ++ "-" ++ goAppendInt seq 4

/-! ## The store data model -/

/-- The kinds of Go errors the store's code paths can return. Each constructor
tags the call site whose returned error is propagated. `removeErr` exists only
to state that it is never the propagated error (the code discards it). -/
inductive GoErr
  | invalidName
  | sourceErr
  | newMessageErr
  | createDirErr
  | createErr
  | copyErr
  | flushErr
  | closeErr
  | writeIndexErr
  | removeErr
  | notFound
  | readDirErr
  | loadIndexErr
  deriving DecidableEq

/-- Name of index file in each mailbox (`indexFileName`). -/
def indexFileName : String := "index.gob"

/-- One entry of a mailbox index: the `FileMessage` metadata fields written to
the index (`Fid`, `Fdate`, `Ffrom`, `Fto`, `Fsize`, `Fsubject`). -/
structure MessageRecord where
  Fid : String
  Fdate : GoTime
  Ffrom : String
  Fto : List String
  Fsize : Nat
  Fsubject : String
  deriving DecidableEq

/-- Embeds the `Store` struct: root path, mail path, and the per-mailbox
message cap taken from configuration. (The lock registry is not part of the
sequential model.) -/
structure Store where
  path : String
  mailPath : String
  messageCap : Int
  deriving DecidableEq

/-- Embeds the `mbox` struct fields constructed by `Store.mbox` and
`Store.mboxFromHash`: canonical name, hash directory name, mailbox directory
path, index file path, and the in-memory record mirror (`messages`, which a
freshly constructed descriptor leaves at its zero value, the empty list). -/
structure Mbox where
  name : String
  dirName : String
  path : String
  indexPath : String
  messages : List MessageRecord
  deriving DecidableEq

/-- Result of resolving a mailbox: Go returns `(*mbox, error)`, and the slice
expressions `hash[0:3]`/`hash[0:6]` may additionally panic. -/
inductive MboxRes
  | panic
  | err (e : GoErr)
  | ok (mb : Mbox)
  deriving DecidableEq

/-- Embeds `Store.mbox`: parse the name via the policy collaborator, hash it
via the hashing collaborator (both external, passed as functions), then derive
`shard1 = hash[0:3]`, `shard2 = hash[0:6]`, the directory path
`mailPath/shard1/shard2/hash` and the index path within it. -/
def Store.mbox (fs : Store) (parse : String → Option String)
    (hashFn : String → String) (mailbox : String) : MboxRes :=
  match parse mailbox with
  | none => MboxRes.err GoErr.invalidName
  | some name =>
    match goSlice (hashFn name) 3, goSlice (hashFn name) 6 with
    | some s1, some s2 =>
      MboxRes.ok
        { name := name
          dirName := hashFn name
          path := goJoin [fs.mailPath, s1, s2, hashFn name]
          indexPath := goJoin [goJoin [fs.mailPath, s1, s2, hashFn name], indexFileName]
          messages := [] }
    | _, _ => MboxRes.panic

/-- Embeds `Store.mboxFromHash`: reconstructs a mailbox descriptor from a hash
directory name alone (the `name` field is left at its zero value), with the
same `hash[0:3]`/`hash[0:6]` slice expressions; `none` is a Go panic. -/
def Store.mboxFromHash (fs : Store) (hash : String) : Option Mbox :=
  match goSlice hash 3, goSlice hash 6 with
  | some s1, some s2 =>
    some
      { name := ""
        dirName := hash
        path := goJoin [fs.mailPath, s1, s2, hash]
        indexPath := goJoin [goJoin [fs.mailPath, s1, s2, hash], indexFileName]
        messages := [] }
  | _, _ => none

/-! ## Store construction (`New`) -/

/-- The storage configuration consumed by `New` (`config.Storage`). -/
structure StorageConfig where
  path : String
  mailboxMsgCap : Int
  deriving DecidableEq

/-- Environment for `New`: whether `os.Stat` on the mail path succeeds, and
whether `os.MkdirAll` succeeds when attempted. -/
structure NewEnv where
  statOk : Bool
  mkdirOk : Bool
  deriving DecidableEq

/-- Events logged through `log.Errorf` by `New`. -/
inductive LogEvent
  | errNoPath
  | errMkdir (dir : String)
  deriving DecidableEq

/-- Embeds `New`: with no configured path it logs and returns nil (`none`);
otherwise it joins the mail path, attempts to create it when `os.Stat` fails —
logging, and only logging, a `MkdirAll` error — and returns the `Store`. -/
def Store.new (cfg : StorageConfig) (env : NewEnv) : Option Store × List LogEvent :=
  if cfg.path = "" then (none, [LogEvent.errNoPath])
  else
    if env.statOk = false ∧ env.mkdirOk = false then
      (some { path := cfg.path, mailPath := goJoin [cfg.path, "mail"], messageCap := cfg.mailboxMsgCap },
        [LogEvent.errMkdir (goJoin [cfg.path, "mail"])])
    else
      (some { path := cfg.path, mailPath := goJoin [cfg.path, "mail"], messageCap := cfg.mailboxMsgCap },
        [])

/-! ## AddMessage -/

/-- The `storage.Message` capability consumed by `AddMessage`: mailbox name
and the metadata accessors `Date`, `From`, `To`, `Subject`. -/
structure MsgInput where
  mailbox : String
  date : GoTime
  fromAddr : String
  toAddrs : List String
  subject : String
  deriving DecidableEq

/-- Environment driving one `AddMessage` execution: the outcome of each
fallible call, the wall-clock time and global-sequence position at ID
generation, and the on-disk index content the mailbox loads. -/
structure AddEnv where
  sourceOk : Bool
  newMessageOk : Bool
  diskIndex : List MessageRecord
  date : GoTime
  seqIndex : Nat
  createDirOk : Bool
  createOk : Bool
  copyResult : Option Nat
  flushOk : Bool
  closeOk : Bool
  writeIndexOk : Bool
  removeOk : Bool
  deriving DecidableEq

/-- The same environment with only the outcome of the cleanup `os.Remove`
call replaced. -/
def setRemoveOk (env : AddEnv) (b : Bool) : AddEnv := { env with removeOk := b }

/-- The effectful actions `AddMessage` (and the other mutators) perform, in
order; `removedRaw` records the `os.Remove` call itself (its outcome,
`env.removeOk`, is discarded by the code, mirroring `_ = os.Remove(...)`). -/
inductive FsAction
  | sourceOpened
  | createdRaw (path : String)
  | copied (size : Nat)
  | closedSource
  | closedFile
  | removedRaw (path : String)
  | wroteIndex (records : List MessageRecord)
  | removedIndex (path : String)
  deriving DecidableEq

/-- Equality of `Except` values is decidable when it is on both sides. -/
instance exceptDecEq {ε α : Type} [DecidableEq ε] [DecidableEq α] :
    DecidableEq (Except ε α) := fun a b =>
  match a, b with
  | Except.error e1, Except.error e2 =>
    if h : e1 = e2 then Decidable.isTrue (congrArg Except.error h)
    else Decidable.isFalse (fun hh => h (Except.error.inj hh))
  | Except.ok a1, Except.ok a2 =>
    if h : a1 = a2 then Decidable.isTrue (congrArg Except.ok h)
    else Decidable.isFalse (fun hh => h (Except.ok.inj hh))
  | Except.error _, Except.ok _ => Decidable.isFalse (fun hh => Except.noConfusion hh)
  | Except.ok _, Except.error _ => Decidable.isFalse (fun hh => Except.noConfusion hh)

/-- What one `AddMessage` execution produced: the Go return value, the action
trace, and the mailbox's in-memory record mirror at return. -/
structure AddOutcome where
  result : Except GoErr String
  trace : List FsAction
  mirror : List MessageRecord
  deriving DecidableEq

/-- Modelled from the spec: the raw-content file path of a record is
`<mailbox-dir>/<id>.raw` (`fm.rawPath()`, whose code is not in view). -/
def rawPath (mb : Mbox) (id : String) : String := goJoin [mb.path, id ++ ".raw"]

/-- The ID allocated by `mb.newMessage()` in environment `env`:
`generateID(time.Now())` with the sequence value pulled from `countChannel`. -/
def newID (env : AddEnv) : String := generateID env.date (countValue env.seqIndex)

/-- The record as completed by `AddMessage` before the index write: the fresh
ID plus the metadata copied from the message and the copied byte count. -/
def newRecord (m : MsgInput) (env : AddEnv) (size : Nat) : MessageRecord :=
  { Fid := newID env
    Fdate := m.date
    Ffrom := m.fromAddr
    Fto := m.toAddrs
    Fsize := size
    Fsubject := m.subject }

/-- Embeds the body of `AddMessage` after mailbox resolution, one branch per
return of the source. `mb.newMessage()` is modelled from the spec as loading
the on-disk index into the mirror and allocating a record with a fresh ID and
raw path; everything else follows `fstore.go` lines 75-126: failures before
`os.Create` return at once; a failed copy closes the file and removes the raw
file; a successful copy closes the source stream; failed flush, close or index
write also remove the raw file; the record is appended to the mirror before
the index write and is not removed again on its failure. -/
def addMessageLocked (mb : Mbox) (m : MsgInput) (env : AddEnv) : AddOutcome :=
  if env.sourceOk = false then
    { result := Except.error GoErr.sourceErr, trace := [], mirror := mb.messages }
  else if env.newMessageOk = false then
    { result := Except.error GoErr.newMessageErr
      trace := [FsAction.sourceOpened]
      mirror := mb.messages }
  else if env.createDirOk = false then
    { result := Except.error GoErr.createDirErr
      trace := [FsAction.sourceOpened]
      mirror := env.diskIndex }
  else if env.createOk = false then
    { result := Except.error GoErr.createErr
      trace := [FsAction.sourceOpened]
      mirror := env.diskIndex }
  else
    match env.copyResult with
    | none =>
      { result := Except.error GoErr.copyErr
        trace := [FsAction.sourceOpened, FsAction.createdRaw (rawPath mb (newID env)),
          FsAction.closedFile, FsAction.removedRaw (rawPath mb (newID env))]
        mirror := env.diskIndex }
    | some size =>
      if env.flushOk = false then
        { result := Except.error GoErr.flushErr
          trace := [FsAction.sourceOpened, FsAction.createdRaw (rawPath mb (newID env)),
            FsAction.copied size, FsAction.closedSource,
            FsAction.closedFile, FsAction.removedRaw (rawPath mb (newID env))]
          mirror := env.diskIndex }
      else if env.closeOk = false then
        { result := Except.error GoErr.closeErr
          trace := [FsAction.sourceOpened, FsAction.createdRaw (rawPath mb (newID env)),
            FsAction.copied size, FsAction.closedSource,
            FsAction.closedFile, FsAction.removedRaw (rawPath mb (newID env))]
          mirror := env.diskIndex }
      else if env.writeIndexOk = false then
        { result := Except.error GoErr.writeIndexErr
          trace := [FsAction.sourceOpened, FsAction.createdRaw (rawPath mb (newID env)),
            FsAction.copied size, FsAction.closedSource, FsAction.closedFile,
            FsAction.removedRaw (rawPath mb (newID env))]
          mirror := env.diskIndex ++ [newRecord m env size] }
      else
        { result := Except.ok (newID env)
          trace := [FsAction.sourceOpened, FsAction.createdRaw (rawPath mb (newID env)),
            FsAction.copied size, FsAction.closedSource, FsAction.closedFile,
            FsAction.wroteIndex (env.diskIndex ++ [newRecord m env size])]
          mirror := env.diskIndex ++ [newRecord m env size] }

/-- Embeds `Store.AddMessage`: resolve the mailbox (panic propagates, a
resolution error is returned) and run the locked body. -/
def Store.addMessage (fs : Store) (parse : String → Option String)
    (hashFn : String → String) (m : MsgInput) (env : AddEnv) : Option AddOutcome :=
  match Store.mbox fs parse hashFn m.mailbox with
  | MboxRes.panic => none
  | MboxRes.err e => some { result := Except.error e, trace := [], mirror := [] }
  | MboxRes.ok mb => some (addMessageLocked mb m env)

/-! ## The read and delete operations -/

/-- Modelled from the spec: `mb.getMessage(id)` returns the record whose ID
matches from the loaded mirror (the load itself, `load`, may fail), or a
not-found error. -/
def mboxGetMessage (mb : Mbox) (load : Except GoErr (List MessageRecord))
    (id : String) : Except GoErr MessageRecord :=
  match mb.messages, load with
  | _, Except.error e => Except.error e
  | _, Except.ok msgs =>
    match msgs.find? (fun r0 => r0.Fid == id) with
    | some r0 => Except.ok r0
    | none => Except.error GoErr.notFound

/-- Modelled from the spec: `mb.getMessages()` returns the loaded mirror in
insertion order. -/
def mboxGetMessages (mb : Mbox) (load : Except GoErr (List MessageRecord)) :
    Except GoErr (List MessageRecord) :=
  match mb.messages, load with
  | _, Except.error e => Except.error e
  | _, Except.ok msgs => Except.ok msgs

/-- Environment for `RemoveMessage`: the index load outcome and whether the
index rewrite succeeds. -/
structure RemoveEnv where
  load : Except GoErr (List MessageRecord)
  writeIndexOk : Bool
  deriving DecidableEq

/-- Modelled from the spec: `mb.removeMessage(id)` fails with not-found when
no record matches; otherwise it removes the record from the list, deletes its
raw file and rewrites the index. -/
def mboxRemoveMessage (mb : Mbox) (env : RemoveEnv) (id : String) :
    Except GoErr Unit × List FsAction :=
  match env.load with
  | Except.error e => (Except.error e, [])
  | Except.ok msgs =>
    if msgs.any (fun r0 => r0.Fid == id) then
      if env.writeIndexOk then
        (Except.ok (), [FsAction.removedRaw (rawPath mb id),
          FsAction.wroteIndex (msgs.filter (fun r0 => r0.Fid != id))])
      else
        (Except.error GoErr.writeIndexErr, [FsAction.removedRaw (rawPath mb id)])
    else (Except.error GoErr.notFound, [])

/-- Environment for `PurgeMessages`: the index load outcome. -/
structure PurgeEnv where
  load : Except GoErr (List MessageRecord)
  deriving DecidableEq

/-- Modelled from the spec: `mb.purge()` deletes every raw file and the index
file, emptying the mailbox. -/
def mboxPurge (mb : Mbox) (env : PurgeEnv) : Except GoErr Unit × List FsAction :=
  match env.load with
  | Except.error e => (Except.error e, [])
  | Except.ok msgs =>
    (Except.ok (),
      (msgs.map (fun r0 => FsAction.removedRaw (rawPath mb r0.Fid)))
        ++ [FsAction.removedIndex mb.indexPath])

/-- Embeds `Store.GetMessage`: resolve, then read under the shared lock. -/
def Store.getMessage (fs : Store) (parse : String → Option String)
    (hashFn : String → String) (mailbox id : String)
    (load : Except GoErr (List MessageRecord)) : Option (Except GoErr MessageRecord) :=
  match Store.mbox fs parse hashFn mailbox with
  | MboxRes.panic => none
  | MboxRes.err e => some (Except.error e)
  | MboxRes.ok mb => some (mboxGetMessage mb load id)

/-- Embeds `Store.GetMessages`: resolve, then read under the shared lock. -/
def Store.getMessages (fs : Store) (parse : String → Option String)
    (hashFn : String → String) (mailbox : String)
    (load : Except GoErr (List MessageRecord)) : Option (Except GoErr (List MessageRecord)) :=
  match Store.mbox fs parse hashFn mailbox with
  | MboxRes.panic => none
  | MboxRes.err e => some (Except.error e)
  | MboxRes.ok mb => some (mboxGetMessages mb load)

/-- Embeds `Store.RemoveMessage`: resolve, then delete under the lock. -/
def Store.removeMessage (fs : Store) (parse : String → Option String)
    (hashFn : String → String) (mailbox id : String) (env : RemoveEnv) :
    Option (Except GoErr Unit × List FsAction) :=
  match Store.mbox fs parse hashFn mailbox with
  | MboxRes.panic => none
  | MboxRes.err e => some (Except.error e, [])
  | MboxRes.ok mb => some (mboxRemoveMessage mb env id)

/-- Embeds `Store.PurgeMessages`: resolve, then purge under the lock. -/
def Store.purgeMessages (fs : Store) (parse : String → Option String)
    (hashFn : String → String) (mailbox : String) (env : PurgeEnv) :
    Option (Except GoErr Unit × List FsAction) :=
  match Store.mbox fs parse hashFn mailbox with
  | MboxRes.panic => none
  | MboxRes.err e => some (Except.error e, [])
  | MboxRes.ok mb => some (mboxPurge mb env)

/-! ## VisitMailboxes

The three-level walk is run against directory-listing data: each entry carries
its name, its `IsDir` flag, and — for directories — the outcome of listing it
(for leaves: the outcome of `mb.getMessages()`, modelled from the spec as the
loaded index of the mailbox the leaf's reconstructed path denotes). -/

/-- A third-level (mailbox) directory entry seen by the walk. -/
structure L3Entry where
  name : String
  isDir : Bool
  msgs : Except GoErr (List MessageRecord)
  deriving DecidableEq

/-- A second-level shard directory entry seen by the walk. -/
structure L2Entry where
  name : String
  isDir : Bool
  children : Except GoErr (List L3Entry)
  deriving DecidableEq

/-- A first-level shard directory entry seen by the walk. -/
structure L1Entry where
  name : String
  isDir : Bool
  children : Except GoErr (List L2Entry)
  deriving DecidableEq

/-- How `VisitMailboxes` can come back: normally, with a listing or read
error, or by a Go panic out of `mboxFromHash`. -/
inductive VisitResult
  | ok
  | err (e : GoErr)
  | panicked
  deriving DecidableEq

/-- The innermost loop of `VisitMailboxes` (over mailbox directories): skips
non-directories, reconstructs each mailbox from its directory name (a slice
panic aborts everything), reads its messages under the shared lock, and
invokes the visitor; a `false` visitor return stops the entire walk with a nil
error. Returns `some r` when the walk returned early with overall result `r`,
`none` when the loop ran through, together with the per-call visitor
arguments in order. -/
def visitL3 (fs : Store) (f : List MessageRecord → Bool) :
    List L3Entry → Option VisitResult × List (List MessageRecord)
  | [] => (none, [])
  | e :: rest =>
    if e.isDir then
      match Store.mboxFromHash fs e.name with
      | none => (some VisitResult.panicked, [])
      | some _ =>
        match e.msgs with
        | Except.error ioe => (some (VisitResult.err ioe), [])
        | Except.ok msgs =>
          if f msgs then
            match visitL3 fs f rest with
            | (r, tr) => (r, msgs :: tr)
          else (some VisitResult.ok, [msgs])
    else visitL3 fs f rest

/-- The middle loop of `VisitMailboxes` (over second-level shard
directories): skips non-directories, propagates listing errors, and runs the
inner loop, stopping everything as soon as it returned early. -/
def visitL2 (fs : Store) (f : List MessageRecord → Bool) :
    List L2Entry → Option VisitResult × List (List MessageRecord)
  | [] => (none, [])
  | e :: rest =>
    if e.isDir then
      match e.children with
      | Except.error ioe => (some (VisitResult.err ioe), [])
      | Except.ok es3 =>
        match visitL3 fs f es3 with
        | (some r, tr) => (some r, tr)
        | (none, tr) =>
          match visitL2 fs f rest with
          | (r, tr2) => (r, tr ++ tr2)
    else visitL2 fs f rest

/-- The outer loop of `VisitMailboxes` (over first-level shard directories). -/
def visitL1 (fs : Store) (f : List MessageRecord → Bool) :
    List L1Entry → Option VisitResult × List (List MessageRecord)
  | [] => (none, [])
  | e :: rest =>
    if e.isDir then
      match e.children with
      | Except.error ioe => (some (VisitResult.err ioe), [])
      | Except.ok es2 =>
        match visitL2 fs f es2 with
        | (some r, tr) => (some r, tr)
        | (none, tr) =>
          match visitL1 fs f rest with
          | (r, tr2) => (r, tr ++ tr2)
    else visitL1 fs f rest

/-- Embeds `Store.VisitMailboxes`: list the mail root (an error is returned at
once), walk the three levels, and return nil when the loops complete. Also
returns the list of visitor invocations, in order. -/
def visitMailboxes (fs : Store) (root : Except GoErr (List L1Entry))
    (f : List MessageRecord → Bool) : VisitResult × List (List MessageRecord) :=
  match root with
  | Except.error e => (VisitResult.err e, [])
  | Except.ok es1 =>
    match visitL1 fs f es1 with
    | (some r, tr) => (r, tr)
    | (none, tr) => (VisitResult.ok, tr)

/-- The precondition of claim C10, as a decidable check over the walk's data:
every directory entry at the third level of the mail tree has a name of at
least 6 characters. -/
def level3NamesLong (root : Except GoErr (List L1Entry)) : Bool :=
  match root with
  | Except.error _ => true
  | Except.ok es1 =>
    es1.all fun e1 =>
      !e1.isDir ||
        (match e1.children with
         | Except.error _ => true
         | Except.ok es2 =>
           es2.all fun e2 =>
             !e2.isDir ||
               (match e2.children with
                | Except.error _ => true
                | Except.ok es3 =>
                  es3.all fun e3 => !e3.isDir || decide (6 ≤ e3.name.length)))

/-! ## Concrete instances used to evaluate the theorems -/

/-- A name policy that accepts every name unchanged. -/
def parseC : String → Option String := fun s => some s

/-- A fixed 10-character lowercase-hex hash value. -/
def hashC : String := "abcdef0123"

/-- A hashing collaborator returning `hashC` for every name. -/
def hashFnC : String → String := fun _ => hashC

/-- A concrete store rooted at `/data`. -/
def fsC : Store := { path := "/data", mailPath := "/data/mail", messageCap := 3 }

/-- A concrete inbound message. -/
def mC : MsgInput :=
  { mailbox := "bob"
    date := { year := 2023, month := 1, day := 1, hour := 0, minute := 0, second := 0 }
    fromAddr := "a@example.com"
    toAddrs := ["b@example.com"]
    subject := "hi" }

/-- An `AddMessage` environment in which every step succeeds. -/
def envOkC : AddEnv :=
  { sourceOk := true, newMessageOk := true, diskIndex := [], date := mC.date
    seqIndex := 0, createDirOk := true, createOk := true, copyResult := some 42
    flushOk := true, closeOk := true, writeIndexOk := true, removeOk := true }

/-- The same environment except that `io.Copy` fails. -/
def envCopyFailC : AddEnv := { envOkC with copyResult := none }

/-- The same environment except that the buffered writer's flush fails, and
the cleanup `os.Remove` fails as well. -/
def envFlushFailC : AddEnv := { envOkC with flushOk := false, removeOk := false }

/-- The same environment except that persisting the index fails. -/
def envWriteFailC : AddEnv := { envOkC with writeIndexOk := false }

/-- Three distinguishable records for the traversal scenario. -/
def recA : MessageRecord :=
  { Fid := "20230101T000000-0000", Fdate := mC.date, Ffrom := "a@example.com"
    Fto := ["b@example.com"], Fsize := 1, Fsubject := "sA" }

/-- Second record. -/
def recB : MessageRecord := { recA with Fid := "20230101T000000-0001", Fsubject := "sB" }

/-- Third record. -/
def recC : MessageRecord := { recA with Fid := "20230101T000000-0002", Fsubject := "sC" }

/-- A mail tree holding exactly 3 mailboxes (one message each), spread over
two first-level shard directories, with a skipped plain file at each level. -/
def rootC : Except GoErr (List L1Entry) :=
  Except.ok
    [ { name := "stray", isDir := false, children := Except.error GoErr.readDirErr }
    , { name := "aaa", isDir := true
        children := Except.ok
          [ { name := "aaa001", isDir := true
              children := Except.ok
                [ { name := "aaa001b1", isDir := true, msgs := Except.ok [recA] }
                , { name := "note.txt", isDir := false, msgs := Except.error GoErr.loadIndexErr }
                , { name := "aaa001b2", isDir := true, msgs := Except.ok [recB] } ] } ] }
    , { name := "bbb", isDir := true
        children := Except.ok
          [ { name := "bbb002", isDir := true
              children := Except.ok
                [ { name := "bbb002c1", isDir := true, msgs := Except.ok [recC] } ] } ] } ]

/-- A mail tree whose single mailbox directory has a 3-character name, shorter
than the 6 characters the slice expressions of `mboxFromHash` require. -/
def badRootC : Except GoErr (List L1Entry) :=
  Except.ok
    [ { name := "aaa", isDir := true
        children := Except.ok
          [ { name := "aaa001", isDir := true
              children := Except.ok
                [ { name := "abc", isDir := true, msgs := Except.ok [recA] } ] } ] } ]

/-- A visitor that continues exactly on `recA`'s singleton list. -/
def visitorC : List MessageRecord → Bool := fun l => l == [recA]

/-- A concrete storage configuration with a nonempty root path. -/
def cfgC : StorageConfig := { path := "/data", mailboxMsgCap := 3 }

/-- A construction environment in which the mail directory does not exist and
cannot be created. -/
def newEnvFailC : NewEnv := { statOk := false, mkdirOk := false }

/-- The ID `AddMessage` allocates in `envOkC` (and the failing variants). -/
def idC : String := "20230101T000000-0000"

/-- A fallback outcome, used only to unwrap the optional result of
`Store.addMessage` at concrete environments where it is `some`. -/
def defaultOutcome : AddOutcome :=
  { result := Except.error GoErr.removeErr, trace := [], mirror := [] }

/-- The outcome of `AddMessage` at `envOkC`. -/
def outOkC : AddOutcome :=
  (Store.addMessage fsC parseC hashFnC mC envOkC).getD defaultOutcome

/-- The outcome of `AddMessage` at `envCopyFailC`. -/
def outCopyFailC : AddOutcome :=
  (Store.addMessage fsC parseC hashFnC mC envCopyFailC).getD defaultOutcome

/-- The outcome of `AddMessage` at `envFlushFailC`. -/
def outFlushFailC : AddOutcome :=
  (Store.addMessage fsC parseC hashFnC mC envFlushFailC).getD defaultOutcome

/-- The outcome of `AddMessage` at `envWriteFailC`. -/
def outWriteFailC : AddOutcome :=
  (Store.addMessage fsC parseC hashFnC mC envWriteFailC).getD defaultOutcome

/-- The raw-content file path allocated in the concrete environments. -/
def rawPathC : String := "/data/mail/abc/abcdef/abcdef0123/" ++ idC ++ ".raw"

/-- The mailbox descriptor the concrete store resolves for `mC`. -/
def mbC : Mbox :=
  { name := "bob"
    dirName := hashC
    path := "/data/mail/abc/abcdef/abcdef0123"
    indexPath := "/data/mail/abc/abcdef/abcdef0123/index.gob"
    messages := [] }

/-! # Theorems

First the supporting lemmas, then one theorem per claim (with its witness or
counterexample where required). -/

/-! ## The sequence generator (C3) -/

/-- The generator's state after `n` sends is `n % 10000`. -/
theorem countValue_mod (n : Nat) : countValue n = n % 10000 := by
  induction n with
  | zero => rfl
  | succ n ih =>
    rw [countValue, ih]
    omega

/-- C3: the sequence generator delivers the infinite cyclic sequence
0,1,...,9999,0,...: the `n`-th value sent over the hand-off channel equals
`n % 10000`, and within any window of 10000 consecutive pulls the values are
pairwise distinct (cyclic order), wrapping afterwards. -/
theorem countGenerator_cyclic (n i j : Nat) (hi : i < 10000) (hj : j < 10000) :
    countValue n = n % 10000 ∧ (countValue (n + i) = countValue (n + j) ↔ i = j) := by
  constructor
  · exact countValue_mod n
  · rw [countValue_mod, countValue_mod]
    omega

/-- Witness for C3 at concrete inputs. -/
theorem countGenerator_cyclic_witness :
    countValue 3 = 3 % 10000 ∧ (countValue (3 + 5) = countValue (3 + 7) ↔ 5 = 7) :=
  countGenerator_cyclic 3 5 7 (by decide) (by decide)

/-! ## Decimal formatting (toward C2) -/

/-- Accumulator lemma for the digit loop. -/
theorem decDigitsAux_append (fuel : Nat) : ∀ n acc, n < fuel →
    decDigitsAux fuel n acc = decDigitsAux fuel n [] ++ acc := by
  induction fuel with
  | zero => intro n acc h; omega
  | succ fuel ih =>
    intro n acc h
    by_cases h10 : n < 10
    · simp [decDigitsAux, h10]
    · have hd : n / 10 < n := Nat.div_lt_self (by omega) (by omega)
      simp only [decDigitsAux, if_neg h10]
      rw [ih (n / 10) (Nat.digitChar (n % 10) :: acc) (by omega),
        ih (n / 10) [Nat.digitChar (n % 10)] (by omega)]
      simp

/-- The digit loop does not depend on the fuel, given enough of it. -/
theorem decDigitsAux_irrel (f1 : Nat) : ∀ f2 n acc, n < f1 → n < f2 →
    decDigitsAux f1 n acc = decDigitsAux f2 n acc := by
  induction f1 with
  | zero => intro f2 n acc h1 _; omega
  | succ f1 ih =>
    intro f2 n acc h1 h2
    match f2 with
    | 0 => omega
    | f2 + 1 =>
      by_cases h10 : n < 10
      · simp [decDigitsAux, h10]
      · have hd : n / 10 < n := Nat.div_lt_self (by omega) (by omega)
        simp only [decDigitsAux, if_neg h10]
        exact ih f2 (n / 10) (Nat.digitChar (n % 10) :: acc) (by omega) (by omega)

/-- One-digit numbers yield their digit character. -/
theorem decDigits_small (n : Nat) (h : n < 10) : decDigits n = [Nat.digitChar n] := by
  simp [decDigits, decDigitsAux, h]

/-- Multi-digit numbers end in their last digit. -/
theorem decDigits_step (n : Nat) (h : ¬ n < 10) :
    decDigits n = decDigits (n / 10) ++ [Nat.digitChar (n % 10)] := by
  have hd : n / 10 < n := Nat.div_lt_self (by omega) (by omega)
  have e1 : decDigits n = decDigitsAux n (n / 10) [Nat.digitChar (n % 10)] := by
    simp [decDigits, decDigitsAux, h]
  rw [e1, decDigitsAux_irrel n (n / 10 + 1) (n / 10) [Nat.digitChar (n % 10)] hd (by omega),
    decDigitsAux_append (n / 10 + 1) (n / 10) [Nat.digitChar (n % 10)] (by omega)]
  rfl

/-- The digit characters of digits are decimal digit characters. -/
theorem digitChar_digit : ∀ m < 10, isDigitChar (Nat.digitChar m) = true := by decide

/-- A number below `10 ^ k` has at most `k` decimal digits. -/
theorem decDigits_length (k : Nat) : ∀ n, 1 ≤ k → n < 10 ^ k → (decDigits n).length ≤ k := by
  induction k with
  | zero => intro n h _; omega
  | succ k ih =>
    intro n _ hn
    by_cases h10 : n < 10
    · rw [decDigits_small n h10]
      simp
    · have hk : 1 ≤ k := by
        by_contra hk0
        have hz : k = 0 := by omega
        subst hz
        simp at hn
        omega
      have hmul : n < 10 ^ k * 10 := by
        rw [pow_succ] at hn
        exact hn
      have hdiv : n / 10 < 10 ^ k := by omega
      rw [decDigits_step n h10]
      have := ih (n / 10) hk hdiv
      simp
      omega

/-- Every character of a decimal representation is a digit character. -/
theorem decDigits_digits (n : Nat) : ∀ c ∈ decDigits n, isDigitChar c = true := by
  induction n using Nat.strong_induction_on with
  | _ n ih =>
    by_cases h10 : n < 10
    · rw [decDigits_small n h10]
      intro c hc
      simp at hc
      subst hc
      exact digitChar_digit n h10
    · rw [decDigits_step n h10]
      intro c hc
      rcases List.mem_append.mp hc with hc | hc
      · exact ih (n / 10) (Nat.div_lt_self (by omega) (by omega)) c hc
      · simp at hc
        subst hc
        exact digitChar_digit (n % 10) (Nat.mod_lt n (by omega))

/-- Width and digit-ness of the zero-padded formatting of `x < 10 ^ w`. -/
theorem goAppendInt_spec (x w : Nat) (h1 : 1 ≤ w) (h2 : x < 10 ^ w) :
    (goAppendInt x w).data.length = w ∧
      ∀ c ∈ (goAppendInt x w).data, isDigitChar c = true := by
  have hlen := decDigits_length w x h1 h2
  have hd : (goAppendInt x w).data =
      List.replicate (w - (decDigits x).length) '0' ++ decDigits x := rfl
  constructor
  · rw [hd]
    simp
    omega
  · rw [hd]
    intro c hc
    rcases List.mem_append.mp hc with hc | hc
    · rw [List.eq_of_mem_replicate hc]
      decide
    · exact decDigits_digits x c hc

/-! ## Matching the ID regex (toward C2) -/

/-- A run of exactly `l.length` characters satisfying `p` is consumed whole. -/
theorem matchRun_exact (p : Char → Bool) : ∀ (l rest : List Char),
    (∀ c ∈ l, p c = true) → matchRun l.length p (l ++ rest) = some rest := by
  intro l
  induction l with
  | nil => intro rest _; rfl
  | cons c cs ih =>
    intro rest h
    simp only [List.length_cons, List.cons_append, matchRun]
    rw [h c (by simp)]
    simp only [if_true]
    exact ih rest (fun c2 hc2 => h c2 (by simp [hc2]))

/-- The same, with the run length given as a separate equation. -/
theorem matchRun_block (p : Char → Bool) (l rest : List Char) (k : Nat)
    (hk : l.length = k) (hall : ∀ c ∈ l, p c = true) :
    matchRun k p (l ++ rest) = some rest := by
  subst hk
  exact matchRun_exact p l rest hall

/-- Runs compose additively. -/
theorem matchRun_add (k1 k2 : Nat) (p : Char → Bool) : ∀ cs,
    matchRun (k1 + k2) p cs = (matchRun k1 p cs).bind (fun cs2 => matchRun k2 p cs2) := by
  induction k1 with
  | zero =>
    intro cs
    simp [matchRun]
  | succ k1 ih =>
    intro cs
    have e : k1 + 1 + k2 = (k1 + k2) + 1 := by omega
    rw [e]
    match cs with
    | [] => simp [matchRun]
    | c :: cs =>
      simp only [matchRun]
      by_cases hp : p c
      · simp [hp, ih]
      · simp [hp]

/-- Any ID built by `generateID` from a wall-clock time within Go's field
ranges and a sequence value pulled from the generator matches the ID regex. -/
theorem generateID_ok (t : GoTime) (n : Nat)
    (hy : t.year < 10000) (hmo : t.month < 100) (hd : t.day < 100)
    (hh : t.hour < 100) (hmi : t.minute < 100) (hs : t.second < 100) :
    isIDFormat (generateID t (countValue n)) = true := by
  have p4 : (10 : Nat) ^ 4 = 10000 := by norm_num
  have p2 : (10 : Nat) ^ 2 = 100 := by norm_num
  have hseq : countValue n < 10000 := by
    rw [countValue_mod]
    omega
  obtain ⟨lY, dY⟩ := goAppendInt_spec t.year 4 (by omega) (by rw [p4]; omega)
  obtain ⟨lMo, dMo⟩ := goAppendInt_spec t.month 2 (by omega) (by rw [p2]; omega)
  obtain ⟨lD, dD⟩ := goAppendInt_spec t.day 2 (by omega) (by rw [p2]; omega)
  obtain ⟨lH, dH⟩ := goAppendInt_spec t.hour 2 (by omega) (by rw [p2]; omega)
  obtain ⟨lMi, dMi⟩ := goAppendInt_spec t.minute 2 (by omega) (by rw [p2]; omega)
  obtain ⟨lS, dS⟩ := goAppendInt_spec t.second 2 (by omega) (by rw [p2]; omega)
  obtain ⟨lQ, dQ⟩ := goAppendInt_spec (countValue n) 4 (by omega) (by rw [p4]; omega)
  set A := (goAppendInt t.year 4).data with hA
  set B := (goAppendInt t.month 2).data with hB
  set C := (goAppendInt t.day 2).data with hC
  set D := (goAppendInt t.hour 2).data with hD
  set E := (goAppendInt t.minute 2).data with hE
  set F := (goAppendInt t.second 2).data with hF
  set G := (goAppendInt (countValue n) 4).data with hG
  have hT : ("T" : String).data = ['T'] := rfl
  have hDash : ("-" : String).data = ['-'] := rfl
  have hdata : (generateID t (countValue n)).data =
      A ++ (B ++ (C ++ ('T' :: (D ++ (E ++ (F ++ ('-' :: G))))))) := by
    simp [generateID, generateDatePart, String.data_append, hT, hDash]
  have m8 : matchRun 8 isDigitChar
      (A ++ (B ++ (C ++ ('T' :: (D ++ (E ++ (F ++ ('-' :: G)))))))) =
      some ('T' :: (D ++ (E ++ (F ++ ('-' :: G))))) := by
    have e8 : (8 : Nat) = 4 + (2 + 2) := rfl
    rw [e8, matchRun_add, matchRun_block isDigitChar A _ 4 lY dY]
    simp only [Option.some_bind]
    rw [matchRun_add, matchRun_block isDigitChar B _ 2 lMo dMo]
    simp only [Option.some_bind]
    exact matchRun_block isDigitChar C _ 2 lD dD
  have m6 : matchRun 6 isDigitChar (D ++ (E ++ (F ++ ('-' :: G)))) =
      some ('-' :: G) := by
    have e6 : (6 : Nat) = 2 + (2 + 2) := rfl
    rw [e6, matchRun_add, matchRun_block isDigitChar D _ 2 lH dH]
    simp only [Option.some_bind]
    rw [matchRun_add, matchRun_block isDigitChar E _ 2 lMi dMi]
    simp only [Option.some_bind]
    exact matchRun_block isDigitChar F _ 2 lS dS
  have m4 : matchRun 4 isDigitChar G = some [] := by
    have hmr := matchRun_block isDigitChar G [] 4 lQ dQ
    rw [List.append_nil] at hmr
    exact hmr
  simp [isIDFormat, hdata, m8, m6, m4]

/-- C2: every successful `AddMessage` returns an ID matching
`^\d{8}T\d{6}-\d{4}$`, built as the wall-clock time at second resolution
(`YYYYMMDDThhmmss`), a dash, and the next global sequence value zero-padded
to 4 digits. -/
theorem addMessage_id_format (fs : Store) (parse : String → Option String)
    (hashFn : String → String) (m : MsgInput) (env : AddEnv) (out : AddOutcome)
    (id : String)
    (hrun : Store.addMessage fs parse hashFn m env = some out)
    (hok : out.result = Except.ok id)
    (hy : env.date.year < 10000) (hmo : env.date.month < 100)
    (hd : env.date.day < 100) (hh : env.date.hour < 100)
    (hmi : env.date.minute < 100) (hs : env.date.second < 100) :
    isIDFormat id = true ∧
      id = generateDatePart env.date ++ "-" ++ goAppendInt (countValue env.seqIndex) 4 := by
  have hid : id = newID env := by
    unfold Store.addMessage at hrun
    cases hmb : Store.mbox fs parse hashFn m.mailbox <;> rw [hmb] at hrun
    · cases hrun
    · injection hrun with hout
      rw [← hout] at hok
      cases hok
    · injection hrun with hout
      rw [← hout] at hok
      simp only [addMessageLocked] at hok
      split at hok
      · cases hok
      · split at hok
        · cases hok
        · split at hok
          · cases hok
          · split at hok
            · cases hok
            · split at hok
              · cases hok
              · split at hok
                · cases hok
                · split at hok
                  · cases hok
                  · split at hok
                    · cases hok
                    · simp only [] at hok
                      injection hok with hid2
                      exact hid2.symm
  subst hid
  exact ⟨generateID_ok env.date env.seqIndex hy hmo hd hh hmi hs, rfl⟩

/-- Witness for C2: the concrete all-succeeding environment. -/
theorem addMessage_id_format_witness :
    isIDFormat idC = true ∧
      idC = generateDatePart envOkC.date ++ "-" ++ goAppendInt (countValue envOkC.seqIndex) 4 :=
  addMessage_id_format fsC parseC hashFnC mC envOkC outOkC idC (by decide) (by decide)
    (by decide) (by decide) (by decide) (by decide) (by decide) (by decide)

/-! ## AddMessage failure handling (C1, C6, C8) -/

/-- In the locked `AddMessage` body, every erroring execution whose trace
shows the raw file was created also shows it removed, and the propagated
error is never the one of the discarded `os.Remove`. -/
theorem addMessageLocked_cleanup (mb : Mbox) (m : MsgInput) (env : AddEnv)
    (p : String) (e : GoErr)
    (hcreated : FsAction.createdRaw p ∈ (addMessageLocked mb m env).trace)
    (herr : (addMessageLocked mb m env).result = Except.error e) :
    FsAction.removedRaw p ∈ (addMessageLocked mb m env).trace ∧ e ≠ GoErr.removeErr := by
  rcases env with ⟨so, nm, di, dt, si, cd, co, cr, fl, cl, wi, ro⟩
  cases so <;> cases nm <;> cases cd <;> cases co <;>
    rcases cr with _ | sz <;> cases fl <;> cases cl <;> cases wi <;>
    simp_all [addMessageLocked] <;> (try cases herr) <;> simp_all

/-- In the locked `AddMessage` body, the source stream is closed exactly in
the executions in which `io.Copy` succeeded. -/
theorem addMessageLocked_close_iff (mb : Mbox) (m : MsgInput) (env : AddEnv) :
    (FsAction.closedSource ∈ (addMessageLocked mb m env).trace ↔
      ∃ k, FsAction.copied k ∈ (addMessageLocked mb m env).trace) := by
  rcases env with ⟨so, nm, di, dt, si, cd, co, cr, fl, cl, wi, ro⟩
  cases so <;> cases nm <;> cases cd <;> cases co <;>
    rcases cr with _ | sz <;> cases fl <;> cases cl <;> cases wi <;>
    simp_all [addMessageLocked]

/-- C1: whenever `AddMessage` returns an error after the raw content file was
created (copy, flush, close or index persistence failed), the raw file was
removed before returning; the propagated error is the step's own, never the
`os.Remove` one, and flipping the deletion's outcome leaves the whole
execution unchanged (deletion failures are swallowed). -/
theorem addMessage_cleanup_on_failure (fs : Store) (parse : String → Option String)
    (hashFn : String → String) (m : MsgInput) (env : AddEnv) (out : AddOutcome)
    (p : String) (e : GoErr)
    (hrun : Store.addMessage fs parse hashFn m env = some out)
    (hcreated : FsAction.createdRaw p ∈ out.trace)
    (herr : out.result = Except.error e) :
    FsAction.removedRaw p ∈ out.trace ∧ e ≠ GoErr.removeErr ∧
      Store.addMessage fs parse hashFn m (setRemoveOk env (!env.removeOk)) = some out := by
  have hflip : Store.addMessage fs parse hashFn m (setRemoveOk env (!env.removeOk)) = some out :=
    hrun
  refine ⟨?_, ?_, hflip⟩ <;>
  · unfold Store.addMessage at hrun
    cases hmb : Store.mbox fs parse hashFn m.mailbox <;> rw [hmb] at hrun
    · cases hrun
    · injection hrun with hout
      rw [← hout] at hcreated
      simp at hcreated
    · injection hrun with hout
      rw [← hout] at hcreated herr
      try rw [← hout]
      first
      | exact (addMessageLocked_cleanup _ m env p e hcreated herr).1
      | exact (addMessageLocked_cleanup _ m env p e hcreated herr).2

/-- Witness for C1: the concrete environment whose flush fails (and whose
cleanup `os.Remove` fails too). -/
theorem addMessage_cleanup_on_failure_witness :
    FsAction.removedRaw rawPathC ∈ outFlushFailC.trace ∧
      GoErr.flushErr ≠ GoErr.removeErr ∧
      Store.addMessage fsC parseC hashFnC mC (setRemoveOk envFlushFailC (!envFlushFailC.removeOk)) =
        some outFlushFailC :=
  addMessage_cleanup_on_failure fsC parseC hashFnC mC envFlushFailC outFlushFailC rawPathC
    GoErr.flushErr (by decide) (by decide) (by decide)

/-- C6 (amended): in every `AddMessage` execution, the source stream is
closed if and only if `io.Copy` over it succeeded; in particular an error
in the copy itself, or in any step between obtaining the source and the
copy, leaves the stream unclosed. -/
theorem addMessage_source_closed_iff (fs : Store) (parse : String → Option String)
    (hashFn : String → String) (m : MsgInput) (env : AddEnv) (out : AddOutcome)
    (hrun : Store.addMessage fs parse hashFn m env = some out) :
    (FsAction.closedSource ∈ out.trace ↔ ∃ k, FsAction.copied k ∈ out.trace) := by
  unfold Store.addMessage at hrun
  cases hmb : Store.mbox fs parse hashFn m.mailbox <;> rw [hmb] at hrun
  · cases hrun
  · injection hrun with hout
    rw [← hout]
    simp
  · injection hrun with hout
    rw [← hout]
    exact addMessageLocked_close_iff _ m env

/-- Witness for C6's amended theorem at the all-succeeding environment. -/
theorem addMessage_source_closed_iff_witness :
    (FsAction.closedSource ∈ outOkC.trace ↔ ∃ k, FsAction.copied k ∈ outOkC.trace) :=
  addMessage_source_closed_iff fsC parseC hashFnC mC envOkC outOkC (by decide)

/-- C6 counterexample: a run whose source is obtained but whose copy fails
returns the copy error without ever closing the source stream, refuting
"closes it after copying regardless of whether the copy ... succeeds or
fails". -/
theorem addMessage_copy_fail_leaves_source_open :
    envCopyFailC.sourceOk = true ∧
      FsAction.sourceOpened ∈ outCopyFailC.trace ∧
      outCopyFailC.result = Except.error GoErr.copyErr ∧
      FsAction.closedSource ∉ outCopyFailC.trace := by decide

/-- C8: when persisting the index fails after the record was appended, the
call returns the index error with the raw file removed, while the in-memory
mirror still holds the appended record (no rollback); and every resolved
mailbox descriptor is fresh — its cached record list is empty, so the
inconsistent mirror cannot outlive the failing call. -/
theorem addMessage_index_fail_no_rollback (fs : Store) (parse : String → Option String)
    (hashFn : String → String) (m : MsgInput) (env : AddEnv) (out : AddOutcome)
    (k : Nat) (mb : Mbox)
    (hmb : Store.mbox fs parse hashFn m.mailbox = MboxRes.ok mb)
    (hrun : Store.addMessage fs parse hashFn m env = some out)
    (hso : env.sourceOk = true) (hnm : env.newMessageOk = true)
    (hcd : env.createDirOk = true) (hco : env.createOk = true)
    (hcr : env.copyResult = some k) (hfl : env.flushOk = true) (hcl : env.closeOk = true)
    (hwi : env.writeIndexOk = false) :
    out.result = Except.error GoErr.writeIndexErr ∧
      out.mirror = env.diskIndex ++ [newRecord m env k] ∧
      FsAction.createdRaw (rawPath mb (newID env)) ∈ out.trace ∧
      FsAction.removedRaw (rawPath mb (newID env)) ∈ out.trace ∧
      (∀ mbx2 mb2, Store.mbox fs parse hashFn mbx2 = MboxRes.ok mb2 → mb2.messages = []) := by
  have hfresh : ∀ mbx2 mb2, Store.mbox fs parse hashFn mbx2 = MboxRes.ok mb2 →
      mb2.messages = [] := by
    intro mbx2 mb2 hmb2
    unfold Store.mbox at hmb2
    cases hparse : parse mbx2 <;> simp only [hparse] at hmb2
    · cases hmb2
    · rename_i nm2
      rcases hs3 : goSlice (hashFn nm2) 3 with _ | s1 <;>
        rcases hs6 : goSlice (hashFn nm2) 6 with _ | s2 <;>
        simp only [hs3, hs6] at hmb2 <;>
        (cases hmb2 <;> rfl)
  unfold Store.addMessage at hrun
  rw [hmb] at hrun
  injection hrun with hout
  have hout2 : out =
      { result := Except.error GoErr.writeIndexErr
        trace := [FsAction.sourceOpened, FsAction.createdRaw (rawPath mb (newID env)),
          FsAction.copied k, FsAction.closedSource, FsAction.closedFile,
          FsAction.removedRaw (rawPath mb (newID env))]
        mirror := env.diskIndex ++ [newRecord m env k] } := by
    rw [← hout]
    simp [addMessageLocked, hso, hnm, hcd, hco, hcr, hfl, hcl, hwi]
  subst hout2
  refine ⟨rfl, rfl, by simp, by simp, hfresh⟩

/-- Witness for C8: the concrete environment whose index write fails. -/
theorem addMessage_index_fail_no_rollback_witness :
    outWriteFailC.result = Except.error GoErr.writeIndexErr ∧
      outWriteFailC.mirror = envWriteFailC.diskIndex ++ [newRecord mC envWriteFailC 42] ∧
      FsAction.createdRaw (rawPath mbC (newID envWriteFailC)) ∈ outWriteFailC.trace ∧
      FsAction.removedRaw (rawPath mbC (newID envWriteFailC)) ∈ outWriteFailC.trace ∧
      (∀ mbx2 mb2, Store.mbox fsC parseC hashFnC mbx2 = MboxRes.ok mb2 → mb2.messages = []) :=
  addMessage_index_fail_no_rollback fsC parseC hashFnC mC envWriteFailC outWriteFailC 42 mbC
    (by decide) (by decide) (by decide) (by decide) (by decide) (by decide) (by decide)
    (by decide) (by decide) (by decide)

/-! ## Store construction (C5) -/

/-- C5 counterexample: with a nonempty root path whose mail directory does
not exist and cannot be created, `New` logs the creation error but still
returns a non-nil `Store` — refuting the claim that a nil-equivalent result
is returned whenever the mail directory cannot be created. -/
theorem new_mkdir_fail_still_returns_store :
    newEnvFailC.statOk = false ∧ newEnvFailC.mkdirOk = false ∧
      (Store.new cfgC newEnvFailC).1 = some fsC ∧
      (Store.new cfgC newEnvFailC).2 = [LogEvent.errMkdir fsC.mailPath] := by decide

/-- C5 (amended): `New` returns nil exactly when the configured root path is
unset; when the mail directory cannot be created, the error is only logged
and a `Store` is still returned. -/
theorem new_nil_iff_no_path (cfg : StorageConfig) (env : NewEnv) :
    ((Store.new cfg env).1 = none ↔ cfg.path = "") ∧
      (cfg.path ≠ "" → env.statOk = false → env.mkdirOk = false →
        (Store.new cfg env).1 = some
            { path := cfg.path
              mailPath := goJoin [cfg.path, "mail"]
              messageCap := cfg.mailboxMsgCap } ∧
          (Store.new cfg env).2 = [LogEvent.errMkdir (goJoin [cfg.path, "mail"])]) := by
  by_cases hp : cfg.path = ""
  · constructor
    · simp [Store.new, hp]
    · intro hne
      exact absurd hp hne
  · constructor
    · simp only [Store.new, if_neg hp]
      split <;> simp [hp]
    · intro _ hst hmk
      constructor
      · simp [Store.new, hp, hst, hmk]
      · simp [Store.new, hp, hst, hmk]

/-- Witness for C5's amended theorem at the concrete failing environment. -/
theorem new_nil_iff_no_path_witness :
    (Store.new cfgC newEnvFailC).1 = some
        { path := cfgC.path
          mailPath := goJoin [cfgC.path, "mail"]
          messageCap := cfgC.mailboxMsgCap } ∧
      (Store.new cfgC newEnvFailC).2 = [LogEvent.errMkdir (goJoin [cfgC.path, "mail"])] :=
  (new_nil_iff_no_path cfgC newEnvFailC).2 (by decide) (by decide) (by decide)

/-! ## Traversal (C7) -/

/-- Splitting membership in the `dropLast` of an append. -/
theorem dropLast_append_mem {α : Type} (l1 l2 : List α) (x : α)
    (hx : x ∈ (l1 ++ l2).dropLast) : x ∈ l1 ∨ x ∈ l2.dropLast := by
  by_cases h2 : l2 = []
  · subst h2
    rw [List.append_nil] at hx
    exact Or.inl ((List.dropLast_sublist l1).subset hx)
  · rw [List.dropLast_append_of_ne_nil l1 h2] at hx
    exact List.mem_append.mp hx

/-- Invariant of the inner loop: every visited mailbox except possibly the
final one got `true` from the visitor, and if the loop ran through, all did. -/
theorem visitL3_inv (fs : Store) (f : List MessageRecord → Bool) (es : List L3Entry) :
    (∀ l ∈ (visitL3 fs f es).2.dropLast, f l = true) ∧
      ((visitL3 fs f es).1 = none → ∀ l ∈ (visitL3 fs f es).2, f l = true) := by
  induction es with
  | nil => simp [visitL3]
  | cons e rest ih =>
    by_cases hdir : e.isDir
    · rcases hmb : Store.mboxFromHash fs e.name with _ | mb
      · simp [visitL3, hdir, hmb]
      · rcases hmsg : e.msgs with ioe | msgs
        · simp [visitL3, hdir, hmb, hmsg]
        · by_cases hf : f msgs
          · rcases hrec : visitL3 fs f rest with ⟨r, tr⟩
            rw [hrec] at ih
            have hv : visitL3 fs f (e :: rest) = (r, msgs :: tr) := by
              simp [visitL3, hdir, hmb, hmsg, hf, hrec]
            rw [hv]
            constructor
            · intro l hl
              cases tr with
              | nil => simp at hl
              | cons t ts =>
                have hdl : (msgs :: t :: ts).dropLast = msgs :: (t :: ts).dropLast := rfl
                rw [hdl] at hl
                rcases List.mem_cons.mp hl with hl | hl
                · rw [hl]
                  exact hf
                · exact ih.1 l hl
            · intro hr l hl
              rcases List.mem_cons.mp hl with hl | hl
              · rw [hl]
                exact hf
              · exact ih.2 hr l hl
          · have hv : visitL3 fs f (e :: rest) = (some VisitResult.ok, [msgs]) := by
              simp [visitL3, hdir, hmb, hmsg, hf]
            rw [hv]
            constructor
            · intro l hl
              simp at hl
            · intro hr
              simp at hr
    · have hv : visitL3 fs f (e :: rest) = visitL3 fs f rest := by
        simp [visitL3, hdir]
      rw [hv]
      exact ih

/-- Invariant of the middle loop, composed from the inner one. -/
theorem visitL2_inv (fs : Store) (f : List MessageRecord → Bool) (es : List L2Entry) :
    (∀ l ∈ (visitL2 fs f es).2.dropLast, f l = true) ∧
      ((visitL2 fs f es).1 = none → ∀ l ∈ (visitL2 fs f es).2, f l = true) := by
  induction es with
  | nil => simp [visitL2]
  | cons e rest ih =>
    by_cases hdir : e.isDir
    · rcases hch : e.children with ioe | es3
      · simp [visitL2, hdir, hch]
      · rcases h3 : visitL3 fs f es3 with ⟨r3, tr3⟩
        have hinv3 := visitL3_inv fs f es3
        rw [h3] at hinv3
        cases r3 with
        | some r =>
          have hv : visitL2 fs f (e :: rest) = (some r, tr3) := by
            simp [visitL2, hdir, hch, h3]
          rw [hv]
          constructor
          · exact fun l hl => hinv3.1 l hl
          · intro hr
            simp at hr
        | none =>
          rcases hrec : visitL2 fs f rest with ⟨r2, tr2⟩
          rw [hrec] at ih
          have hall3 : ∀ l ∈ tr3, f l = true := hinv3.2 rfl
          have hv : visitL2 fs f (e :: rest) = (r2, tr3 ++ tr2) := by
            simp [visitL2, hdir, hch, h3, hrec]
          rw [hv]
          constructor
          · intro l hl
            rcases dropLast_append_mem tr3 tr2 l hl with hl | hl
            · exact hall3 l hl
            · exact ih.1 l hl
          · intro hr l hl
            rcases List.mem_append.mp hl with hl | hl
            · exact hall3 l hl
            · exact ih.2 hr l hl
    · have hv : visitL2 fs f (e :: rest) = visitL2 fs f rest := by
        simp [visitL2, hdir]
      rw [hv]
      exact ih

/-- Invariant of the outer loop, composed from the middle one. -/
theorem visitL1_inv (fs : Store) (f : List MessageRecord → Bool) (es : List L1Entry) :
    (∀ l ∈ (visitL1 fs f es).2.dropLast, f l = true) ∧
      ((visitL1 fs f es).1 = none → ∀ l ∈ (visitL1 fs f es).2, f l = true) := by
  induction es with
  | nil => simp [visitL1]
  | cons e rest ih =>
    by_cases hdir : e.isDir
    · rcases hch : e.children with ioe | es2
      · simp [visitL1, hdir, hch]
      · rcases h2 : visitL2 fs f es2 with ⟨r2, tr2⟩
        have hinv2 := visitL2_inv fs f es2
        rw [h2] at hinv2
        cases r2 with
        | some r =>
          have hv : visitL1 fs f (e :: rest) = (some r, tr2) := by
            simp [visitL1, hdir, hch, h2]
          rw [hv]
          constructor
          · exact fun l hl => hinv2.1 l hl
          · intro hr
            simp at hr
        | none =>
          rcases hrec : visitL1 fs f rest with ⟨r1, tr1⟩
          rw [hrec] at ih
          have hall2 : ∀ l ∈ tr2, f l = true := hinv2.2 rfl
          have hv : visitL1 fs f (e :: rest) = (r1, tr2 ++ tr1) := by
            simp [visitL1, hdir, hch, h2, hrec]
          rw [hv]
          constructor
          · intro l hl
            rcases dropLast_append_mem tr2 tr1 l hl with hl | hl
            · exact hall2 l hl
            · exact ih.1 l hl
          · intro hr l hl
            rcases List.mem_append.mp hl with hl | hl
            · exact hall2 l hl
            · exact ih.2 hr l hl
    · have hv : visitL1 fs f (e :: rest) = visitL1 fs f rest := by
        simp [visitL1, hdir]
      rw [hv]
      exact ih

/-- C7: a `false` visitor return halts the whole traversal at once — every
visitor invocation before the final one returned `true`, at whatever nesting
depth — and over the concrete store holding 3 mailboxes, an always-`false`
visitor is invoked exactly once with the walk ending without error (while an
always-`true` visitor is invoked exactly three times). -/
theorem visitMailboxes_stop_semantics (fs : Store) (root : Except GoErr (List L1Entry))
    (f : List MessageRecord → Bool) (l : List MessageRecord)
    (hl : l ∈ (visitMailboxes fs root f).2.dropLast) :
    f l = true ∧
      visitMailboxes fsC rootC (fun _ => false) = (VisitResult.ok, [[recA]]) ∧
      visitMailboxes fsC rootC (fun _ => true) =
        (VisitResult.ok, [[recA], [recB], [recC]]) := by
  refine ⟨?_, by decide, by decide⟩
  cases root with
  | error e =>
    simp [visitMailboxes] at hl
  | ok es1 =>
    have hinv := visitL1_inv fs f es1
    rcases h1 : visitL1 fs f es1 with ⟨r1, tr1⟩
    rw [h1] at hinv
    simp only [visitMailboxes, h1] at hl
    cases r1 with
    | some r =>
      exact hinv.1 l hl
    | none =>
      exact hinv.1 l hl

/-- Witness for C7: the concrete tree with the visitor that accepts only the
first mailbox's list; it is invoked twice, and only the last invocation said
stop. -/
theorem visitMailboxes_stop_semantics_witness :
    visitorC [recA] = true ∧
      visitMailboxes fsC rootC (fun _ => false) = (VisitResult.ok, [[recA]]) ∧
      visitMailboxes fsC rootC (fun _ => true) =
        (VisitResult.ok, [[recA], [recB], [recC]]) :=
  visitMailboxes_stop_semantics fsC rootC visitorC [recA] (by decide)

/-! ## Path derivation (C4) -/

/-- C4: for every mailbox name that the policy canonicalizes and whose hash
has at least 6 characters, name-based resolution yields exactly the mailbox
directory `mailRoot/shard1/shard2/hash` — `shard1` the first 3 and `shard2`
the first 6 characters of the hash — with the index file inside it, and
hash-based reconstruction derives the identical paths. -/
theorem mbox_path_derivation (fs : Store) (parse : String → Option String)
    (hashFn : String → String) (mailbox name : String)
    (hp : parse mailbox = some name) (hlen : 6 ≤ (hashFn name).length) :
    Store.mbox fs parse hashFn mailbox = MboxRes.ok
      { name := name
        dirName := hashFn name
        path := fs.mailPath ++ "/" ++ String.mk ((hashFn name).data.take 3)
          ++ "/" ++ String.mk ((hashFn name).data.take 6) ++ "/" ++ hashFn name
        indexPath := fs.mailPath ++ "/" ++ String.mk ((hashFn name).data.take 3)
          ++ "/" ++ String.mk ((hashFn name).data.take 6) ++ "/" ++ hashFn name
          ++ "/" ++ indexFileName
        messages := [] } ∧
    Store.mboxFromHash fs (hashFn name) = some
      { name := ""
        dirName := hashFn name
        path := fs.mailPath ++ "/" ++ String.mk ((hashFn name).data.take 3)
          ++ "/" ++ String.mk ((hashFn name).data.take 6) ++ "/" ++ hashFn name
        indexPath := fs.mailPath ++ "/" ++ String.mk ((hashFn name).data.take 3)
          ++ "/" ++ String.mk ((hashFn name).data.take 6) ++ "/" ++ hashFn name
          ++ "/" ++ indexFileName
        messages := [] } := by
  have hlen2 : 6 ≤ (hashFn name).data.length := hlen
  have h3 : 3 ≤ (hashFn name).data.length := by omega
  have hs3 : goSlice (hashFn name) 3 = some (String.mk ((hashFn name).data.take 3)) := by
    unfold goSlice
    rw [if_pos h3]
  have hs6 : goSlice (hashFn name) 6 = some (String.mk ((hashFn name).data.take 6)) := by
    unfold goSlice
    rw [if_pos hlen2]
  have hjoin4 : ∀ a b c d : String,
      goJoin [a, b, c, d] = a ++ "/" ++ b ++ "/" ++ c ++ "/" ++ d := by
    intro a b c d
    simp [goJoin, String.append_assoc]
  have hjoin2 : ∀ a b : String, goJoin [a, b] = a ++ "/" ++ b := fun a b => rfl
  constructor
  · simp only [Store.mbox, hp, hs3, hs6, hjoin2, hjoin4]
  · simp only [Store.mboxFromHash, hs3, hs6, hjoin2, hjoin4]

/-- Witness for C4 at the concrete store, policy and hash. -/
theorem mbox_path_derivation_witness :
    Store.mbox fsC parseC hashFnC mC.mailbox = MboxRes.ok
      { name := mC.mailbox
        dirName := hashFnC mC.mailbox
        path := fsC.mailPath ++ "/" ++ String.mk ((hashFnC mC.mailbox).data.take 3)
          ++ "/" ++ String.mk ((hashFnC mC.mailbox).data.take 6) ++ "/" ++ hashFnC mC.mailbox
        indexPath := fsC.mailPath ++ "/" ++ String.mk ((hashFnC mC.mailbox).data.take 3)
          ++ "/" ++ String.mk ((hashFnC mC.mailbox).data.take 6) ++ "/" ++ hashFnC mC.mailbox
          ++ "/" ++ indexFileName
        messages := [] } ∧
    Store.mboxFromHash fsC (hashFnC mC.mailbox) = some
      { name := ""
        dirName := hashFnC mC.mailbox
        path := fsC.mailPath ++ "/" ++ String.mk ((hashFnC mC.mailbox).data.take 3)
          ++ "/" ++ String.mk ((hashFnC mC.mailbox).data.take 6) ++ "/" ++ hashFnC mC.mailbox
        indexPath := fsC.mailPath ++ "/" ++ String.mk ((hashFnC mC.mailbox).data.take 3)
          ++ "/" ++ String.mk ((hashFnC mC.mailbox).data.take 6) ++ "/" ++ hashFnC mC.mailbox
          ++ "/" ++ indexFileName
        messages := [] } :=
  mbox_path_derivation fsC parseC hashFnC mC.mailbox mC.mailbox (by decide) (by decide)

/-! ## The message cap is never read (C9) -/

/-- The inner walk loop ignores the store's message cap. -/
theorem visitL3_cap (p mp : String) (c1 c2 : Int) (f : List MessageRecord → Bool)
    (es : List L3Entry) : visitL3 ⟨p, mp, c1⟩ f es = visitL3 ⟨p, mp, c2⟩ f es := by
  induction es with
  | nil => rfl
  | cons e rest ih =>
    have hm : Store.mboxFromHash ⟨p, mp, c1⟩ e.name =
        Store.mboxFromHash ⟨p, mp, c2⟩ e.name := rfl
    by_cases hdir : e.isDir
    · simp only [visitL3, if_pos hdir, hm, ih]
    · simp only [visitL3, if_neg hdir, ih]

/-- The middle walk loop ignores the store's message cap. -/
theorem visitL2_cap (p mp : String) (c1 c2 : Int) (f : List MessageRecord → Bool)
    (es : List L2Entry) : visitL2 ⟨p, mp, c1⟩ f es = visitL2 ⟨p, mp, c2⟩ f es := by
  induction es with
  | nil => rfl
  | cons e rest ih =>
    by_cases hdir : e.isDir
    · simp only [visitL2, if_pos hdir, visitL3_cap p mp c1 c2 f, ih]
    · simp only [visitL2, if_neg hdir, ih]

/-- The outer walk loop ignores the store's message cap. -/
theorem visitL1_cap (p mp : String) (c1 c2 : Int) (f : List MessageRecord → Bool)
    (es : List L1Entry) : visitL1 ⟨p, mp, c1⟩ f es = visitL1 ⟨p, mp, c2⟩ f es := by
  induction es with
  | nil => rfl
  | cons e rest ih =>
    by_cases hdir : e.isDir
    · simp only [visitL1, if_pos hdir, visitL2_cap p mp c1 c2 f, ih]
    · simp only [visitL1, if_neg hdir, ih]

/-- C9: two stores differing only in their message-cap value behave
identically: `AddMessage`, `GetMessage`, `GetMessages`, `RemoveMessage`,
`PurgeMessages` and `VisitMailboxes` produce the same results, traces and
in-memory mirrors on the same inputs — no code path reads the cap after
construction. -/
theorem messageCap_never_read (p mp : String) (c1 c2 : Int)
    (parse : String → Option String) (hashFn : String → String)
    (m : MsgInput) (env : AddEnv) (mailbox id : String)
    (load : Except GoErr (List MessageRecord)) (renv : RemoveEnv) (penv : PurgeEnv)
    (root : Except GoErr (List L1Entry)) (f : List MessageRecord → Bool) :
    Store.addMessage ⟨p, mp, c1⟩ parse hashFn m env =
        Store.addMessage ⟨p, mp, c2⟩ parse hashFn m env ∧
      Store.getMessage ⟨p, mp, c1⟩ parse hashFn mailbox id load =
        Store.getMessage ⟨p, mp, c2⟩ parse hashFn mailbox id load ∧
      Store.getMessages ⟨p, mp, c1⟩ parse hashFn mailbox load =
        Store.getMessages ⟨p, mp, c2⟩ parse hashFn mailbox load ∧
      Store.removeMessage ⟨p, mp, c1⟩ parse hashFn mailbox id renv =
        Store.removeMessage ⟨p, mp, c2⟩ parse hashFn mailbox id renv ∧
      Store.purgeMessages ⟨p, mp, c1⟩ parse hashFn mailbox penv =
        Store.purgeMessages ⟨p, mp, c2⟩ parse hashFn mailbox penv ∧
      visitMailboxes ⟨p, mp, c1⟩ root f = visitMailboxes ⟨p, mp, c2⟩ root f := by
  refine ⟨rfl, rfl, rfl, rfl, rfl, ?_⟩
  cases root with
  | error e => rfl
  | ok es1 =>
    simp only [visitMailboxes, visitL1_cap p mp c1 c2 f]

/-! ## Slice bounds in mboxFromHash (C10) -/

/-- `mboxFromHash` survives its slice expressions exactly on hashes of at
least 6 characters. -/
theorem mboxFromHash_isSome (fs : Store) (h : String) :
    (Store.mboxFromHash fs h).isSome = true ↔ 6 ≤ h.length := by
  have hlen : h.length = h.data.length := rfl
  by_cases h6 : 6 ≤ h.data.length
  · have h3 : 3 ≤ h.data.length := by omega
    have hs3 : goSlice h 3 = some (String.mk (h.data.take 3)) := by
      unfold goSlice
      rw [if_pos h3]
    have hs6 : goSlice h 6 = some (String.mk (h.data.take 6)) := by
      unfold goSlice
      rw [if_pos h6]
    simp only [Store.mboxFromHash, hs3, hs6]
    constructor
    · intro _
      rw [hlen]
      exact h6
    · intro _
      rfl
  · have hn : goSlice h 6 = none := by
      unfold goSlice
      rw [if_neg h6]
    rcases hs3 : goSlice h 3 with _ | s1 <;>
      simp only [Store.mboxFromHash, hs3, hn] <;>
      exact ⟨fun hx => by simp at hx, fun hx => absurd (hlen ▸ hx) h6⟩

/-- The inner loop cannot panic when all mailbox directory names are long
enough. -/
theorem visitL3_no_panic (fs : Store) (f : List MessageRecord → Bool) (es : List L3Entry)
    (hlen : ∀ e ∈ es, e.isDir = true → 6 ≤ e.name.length) :
    (visitL3 fs f es).1 ≠ some VisitResult.panicked := by
  induction es with
  | nil => simp [visitL3]
  | cons e rest ih =>
    have ihr : (visitL3 fs f rest).1 ≠ some VisitResult.panicked :=
      ih (fun x hx hdx => hlen x (List.mem_cons.mpr (Or.inr hx)) hdx)
    by_cases hdir : e.isDir
    · have h6 : 6 ≤ e.name.length := hlen e (List.mem_cons_self e rest) hdir
      have hsome := (mboxFromHash_isSome fs e.name).mpr h6
      rcases hmb : Store.mboxFromHash fs e.name with _ | mb
      · rw [hmb] at hsome
        simp at hsome
      · rcases hmsg : e.msgs with ioe | msgs
        · simp [visitL3, hdir, hmb, hmsg]
        · by_cases hf : f msgs
          · rcases hrec : visitL3 fs f rest with ⟨r, tr⟩
            rw [hrec] at ihr
            have hv : visitL3 fs f (e :: rest) = (r, msgs :: tr) := by
              simp [visitL3, hdir, hmb, hmsg, hf, hrec]
            rw [hv]
            exact ihr
          · simp [visitL3, hdir, hmb, hmsg, hf]
    · have hv : visitL3 fs f (e :: rest) = visitL3 fs f rest := by
        simp [visitL3, hdir]
      rw [hv]
      exact ihr

/-- The middle loop cannot panic when all third-level names are long enough. -/
theorem visitL2_no_panic (fs : Store) (f : List MessageRecord → Bool) (es : List L2Entry)
    (hlen : ∀ e ∈ es, e.isDir = true → ∀ es3, e.children = Except.ok es3 →
      ∀ e3 ∈ es3, e3.isDir = true → 6 ≤ e3.name.length) :
    (visitL2 fs f es).1 ≠ some VisitResult.panicked := by
  induction es with
  | nil => simp [visitL2]
  | cons e rest ih =>
    have ihr : (visitL2 fs f rest).1 ≠ some VisitResult.panicked :=
      ih (fun x hx => hlen x (List.mem_cons.mpr (Or.inr hx)))
    by_cases hdir : e.isDir
    · rcases hch : e.children with ioe | es3
      · simp [visitL2, hdir, hch]
      · have hnp3 := visitL3_no_panic fs f es3
          (hlen e (List.mem_cons_self e rest) hdir es3 hch)
        rcases h3 : visitL3 fs f es3 with ⟨r3, tr3⟩
        rw [h3] at hnp3
        cases r3 with
        | some r =>
          have hv : visitL2 fs f (e :: rest) = (some r, tr3) := by
            simp [visitL2, hdir, hch, h3]
          rw [hv]
          exact hnp3
        | none =>
          rcases hrec : visitL2 fs f rest with ⟨r2, tr2⟩
          rw [hrec] at ihr
          have hv : visitL2 fs f (e :: rest) = (r2, tr3 ++ tr2) := by
            simp [visitL2, hdir, hch, h3, hrec]
          rw [hv]
          exact ihr
    · have hv : visitL2 fs f (e :: rest) = visitL2 fs f rest := by
        simp [visitL2, hdir]
      rw [hv]
      exact ihr

/-- The outer loop cannot panic when all third-level names are long enough. -/
theorem visitL1_no_panic (fs : Store) (f : List MessageRecord → Bool) (es : List L1Entry)
    (hlen : ∀ e ∈ es, e.isDir = true → ∀ es2, e.children = Except.ok es2 →
      ∀ e2 ∈ es2, e2.isDir = true → ∀ es3, e2.children = Except.ok es3 →
      ∀ e3 ∈ es3, e3.isDir = true → 6 ≤ e3.name.length) :
    (visitL1 fs f es).1 ≠ some VisitResult.panicked := by
  induction es with
  | nil => simp [visitL1]
  | cons e rest ih =>
    have ihr : (visitL1 fs f rest).1 ≠ some VisitResult.panicked :=
      ih (fun x hx => hlen x (List.mem_cons.mpr (Or.inr hx)))
    by_cases hdir : e.isDir
    · rcases hch : e.children with ioe | es2
      · simp [visitL1, hdir, hch]
      · have hnp2 := visitL2_no_panic fs f es2
          (hlen e (List.mem_cons_self e rest) hdir es2 hch)
        rcases h2 : visitL2 fs f es2 with ⟨r2, tr2⟩
        rw [h2] at hnp2
        cases r2 with
        | some r =>
          have hv : visitL1 fs f (e :: rest) = (some r, tr2) := by
            simp [visitL1, hdir, hch, h2]
          rw [hv]
          exact hnp2
        | none =>
          rcases hrec : visitL1 fs f rest with ⟨r1, tr1⟩
          rw [hrec] at ihr
          have hv : visitL1 fs f (e :: rest) = (r1, tr2 ++ tr1) := by
            simp [visitL1, hdir, hch, h2, hrec]
          rw [hv]
          exact ihr
    · have hv : visitL1 fs f (e :: rest) = visitL1 fs f rest := by
        simp [visitL1, hdir]
      rw [hv]
      exact ihr

/-- C10: `mboxFromHash` is well-defined exactly on hash strings of at least
6 characters; consequently `VisitMailboxes` is panic-free whenever every
directory at the third level of the mail tree has a name of at least 6
characters — and over a concrete tree with a 3-character mailbox directory
name, the walk panics. -/
theorem mboxFromHash_slice_bounds (fs : Store) (h : String)
    (root : Except GoErr (List L1Entry)) (f : List MessageRecord → Bool)
    (hP : level3NamesLong root = true) :
    ((Store.mboxFromHash fs h).isSome = true ↔ 6 ≤ h.length) ∧
      (visitMailboxes fs root f).1 ≠ VisitResult.panicked ∧
      (visitMailboxes fsC badRootC (fun _ => true)).1 = VisitResult.panicked := by
  refine ⟨mboxFromHash_isSome fs h, ?_, by decide⟩
  cases root with
  | error e => simp [visitMailboxes]
  | ok es1 =>
    have hlen : ∀ e1 ∈ es1, e1.isDir = true → ∀ es2, e1.children = Except.ok es2 →
        ∀ e2 ∈ es2, e2.isDir = true → ∀ es3, e2.children = Except.ok es3 →
        ∀ e3 ∈ es3, e3.isDir = true → 6 ≤ e3.name.length := by
      intro e1 h1 hd1 es2 hch1 e2 h2 hd2 es3 hch2 e3 h3e hd3
      simp only [level3NamesLong, List.all_eq_true] at hP
      have hP1 := hP e1 h1
      rw [hd1, hch1] at hP1
      simp only [Bool.not_true, Bool.false_or, List.all_eq_true] at hP1
      have hP2 := hP1 e2 h2
      rw [hd2, hch2] at hP2
      simp only [Bool.not_true, Bool.false_or, List.all_eq_true] at hP2
      have hP3 := hP2 e3 h3e
      rw [hd3] at hP3
      simp only [Bool.not_true, Bool.false_or, decide_eq_true_eq] at hP3
      exact hP3
    have hnp := visitL1_no_panic fs f es1 hlen
    rcases h1 : visitL1 fs f es1 with ⟨r1, tr1⟩
    rw [h1] at hnp
    simp only [visitMailboxes, h1]
    cases r1 with
    | some r =>
      change r ≠ VisitResult.panicked
      exact fun heq => hnp (by rw [heq])
    | none => simp

/-- Witness for C10 at the concrete well-formed tree. -/
theorem mboxFromHash_slice_bounds_witness :
    ((Store.mboxFromHash fsC hashC).isSome = true ↔ 6 ≤ hashC.length) ∧
      (visitMailboxes fsC rootC visitorC).1 ≠ VisitResult.panicked ∧
      (visitMailboxes fsC badRootC (fun _ => true)).1 = VisitResult.panicked :=
  mboxFromHash_slice_bounds fsC hashC rootC visitorC (by decide)
